import Mathlib

/-!
Shallow embedding of the Ansible `apk` module
(`lib/ansible/modules/extras/packaging/os/apk.py`).

The module drives the external `apk` binary.  We model the backend's
responses as a structure of response functions: since each of
`apk update`, `apk upgrade`, `apk add`, `apk del` is invoked at most once
per run, their return codes are plain fields; the per-package queries
`apk -v info --installed NAME` and `apk version NAME` get per-name
response functions.  Every command the module would issue is recorded,
in order, in a trace.
-/

/-- One command issued to the apk backend. -/
inductive Cmd where
  /-- apk update -/
  | update : Cmd
  /-- apk -v info --installed NAME (the isInstalled query of query_package) -/
  | info : String → Cmd
  /-- apk version NAME (the hasUpdate query of query_latest) -/
  | version : String → Cmd
  /-- apk upgrade, with the simulate flag (check mode) -/
  | upgradeAll : Bool → Cmd
  /-- apk add; fields: upgrade modifier present, simulate flag, package batch -/
  | add : Bool → Bool → List String → Cmd
  /-- apk del --purge; fields: simulate flag, package batch -/
  | del : Bool → List String → Cmd
  deriving DecidableEq, Repr

/-- Result of a run: module.exit_json carries (changed, msg), module.fail_json
carries msg, and noResult models main returning without either call
(unreachable for the states admitted by the argument spec). -/
inductive Outcome where
  | ok : Bool → String → Outcome
  | failed : String → Outcome
  | noResult : Outcome
  deriving DecidableEq, Repr

/-- Responses of the external apk backend. -/
structure Backend where
  /-- return code of apk update -/
  updateRC : Nat
  /-- return code of apk -v info --installed NAME -/
  infoRC : String → Nat
  /-- stdout of apk version NAME -/
  versionOut : String → String
  /-- return code of apk upgrade -/
  upgradeRC : Nat
  /-- stdout of apk upgrade -/
  upgradeOut : String
  /-- return code of apk add -/
  addRC : Nat
  /-- return code of apk del -/
  delRC : Nat

/-! Character classes of the Python 2 regular expression
`"(%s)-[\d\.\w]+-[\d\w]+\s+(.)\s+[\d\.\w]+-[\d\w]+\s+" % name`
(ASCII semantics, the Python 2 default for `str` patterns). -/

/-- Python `\w`: ASCII letters, digits and underscore. -/
def wordChar (c : Char) : Bool := c.isAlpha || c.isDigit || c == '_'

/-- Character class `[\d\.\w]`. -/
def classA (c : Char) : Bool := c.isDigit || c == '.' || wordChar c

/-- Character class `[\d\w]`. -/
def classB (c : Char) : Bool := c.isDigit || wordChar c

/-- Python `\s`. -/
def spaceChar (c : Char) : Bool :=
  c == ' ' || c == '\t' || c == '\n' || c == '\r' || c == '\x0b' || c == '\x0c'

/-- Tokens of the fixed pattern shape used by query_latest: literal text,
a greedy one-or-more character class, and the single capturing `(.)`
(any character but newline, Python group 2). -/
inductive Tok where
  | lit : List Char → Tok
  | plus : (Char → Bool) → Tok
  | anyCapture : Tok

/-- Backtracking matcher for a token sequence against a prefix of the input,
with Python semantics: `plus` is greedy (longest repetition first, then
backtracks), `anyCapture` matches any character except newline and records
it.  Returns the recorded group-2 character on success.  One unit of fuel
is spent per token, so fuel = token count suffices. -/
def matchToks : Nat → List Tok → List Char → Option (Option Char)
  | _, [], _ => some none
  | 0, _ :: _, _ => none
  | f + 1, Tok.lit s :: ts, input =>
      if s.isPrefixOf input then matchToks f ts (input.drop s.length) else none
  | f + 1, Tok.anyCapture :: ts, input =>
      match input with
      | [] => none
      | c :: rest =>
          if c == '\n' then none
          else
            match matchToks f ts rest with
            | some _ => some (some c)
            | none => none
  | f + 1, Tok.plus cls :: ts, input =>
      let k := (input.takeWhile cls).length
      (List.range k).reverse.findSome? fun j => matchToks f ts (input.drop (j + 1))

/-- re.search: try each start position from the left; the leftmost position
admitting a match wins. -/
def searchToks (toks : List Tok) : List Char → Option (Option Char)
  | [] => matchToks toks.length toks []
  | c :: rest =>
      match matchToks toks.length toks (c :: rest) with
      | some r => some r
      | none => searchToks toks rest

/-- Token sequence of the pattern
`(%s)-[\d\.\w]+-[\d\w]+\s+(.)\s+[\d\.\w]+-[\d\w]+\s+` with the package
name spliced in.  The name is treated as literal text, which is faithful
for names free of regex metacharacters (apk names use letters, digits,
`_` and `-`). -/
def versionToks (name : String) : List Tok :=
  [Tok.lit name.data, Tok.lit ['-'], Tok.plus classA, Tok.lit ['-'], Tok.plus classB,
   Tok.plus spaceChar, Tok.anyCapture, Tok.plus spaceChar,
   Tok.plus classA, Tok.lit ['-'], Tok.plus classB, Tok.plus spaceChar]

/-- query_package from apk.py: rc 0 of `apk -v info --installed NAME` means
installed, any other rc means not installed. -/
def query_package (b : Backend) (name : String) : Bool := b.infoRC name == 0

/-- query_latest from apk.py: search the version-listing output for the
pattern; if a match exists and its group 2 is `<`, the package is not the
latest (an update is available) and the function returns false; in every
other case (no match, or another marker) it returns true. -/
def query_latest (b : Backend) (name : String) : Bool :=
  match searchToks (versionToks name) (b.versionOut name).data with
  | some (some c) => if c == '<' then false else true
  | some none => true
  | none => true

/-- Python `" ".join`. -/
def joinSpace : List String → String
  | [] => ""
  | [x] => x
  | x :: y :: xs => x ++ " " ++ joinSpace (y :: xs)

/-- re.search of `^OK` without MULTILINE over the upgrade output: matches
exactly when the output starts with OK. -/
def startsWithOK (s : String) : Bool := ("OK".data).isPrefixOf s.data

/-- upgrade_packages from apk.py. -/
def upgrade_packages (b : Backend) (check_mode : Bool) : Outcome × List Cmd :=
  if b.upgradeRC != 0 then
    (Outcome.failed "failed to upgrade packages", [Cmd.upgradeAll check_mode])
  else if startsWithOK b.upgradeOut then
    (Outcome.ok false "packages already upgraded", [Cmd.upgradeAll check_mode])
  else
    (Outcome.ok true "upgraded packages", [Cmd.upgradeAll check_mode])

/-- The classification loop of install_packages (lines 131-137): for each
name in order, if not installed it is appended to `uninstalled`; else, if
the state is latest, query_latest runs and a stale answer sets the upgrade
flag.  Returns (uninstalled, upgrade flag, issued queries in order). -/
def classify (b : Backend) (state : String) : List String → List String × Bool × List Cmd
  | [] => ([], false, [])
  | name :: rest =>
      let r := classify b state rest
      if !(query_package b name) then
        (name :: r.1, r.2.1, Cmd.info name :: r.2.2)
      else if state == "latest" then
        (r.1, (!(query_latest b name)) || r.2.1, Cmd.info name :: Cmd.version name :: r.2.2)
      else
        (r.1, r.2.1, Cmd.info name :: r.2.2)

/-- install_packages from apk.py.  Note that the command's package list is
`" ".join(uninstalled)`: only the names found not installed are passed,
even when the upgrade flag was set by a stale installed package. -/
def install_packages (b : Backend) (check_mode : Bool) (names : List String)
    (state : String) : Outcome × List Cmd :=
  let c := classify b state names
  let uninstalled := c.1
  let upgrade := c.2.1
  let tr := c.2.2
  if uninstalled.isEmpty && !upgrade then
    (Outcome.ok false "package(s) already installed", tr)
  else
    let joined := joinSpace uninstalled
    if b.addRC != 0 then
      (Outcome.failed ("failed to install " ++ joined),
       tr ++ [Cmd.add upgrade check_mode uninstalled])
    else
      (Outcome.ok true ("installed " ++ joined ++ " package(s)"),
       tr ++ [Cmd.add upgrade check_mode uninstalled])

/-- The collection loop of remove_packages (lines 157-160): the installed
names, in input order, plus the issued queries. -/
def collectInstalled (b : Backend) : List String → List String × List Cmd
  | [] => ([], [])
  | name :: rest =>
      let r := collectInstalled b rest
      if query_package b name then (name :: r.1, Cmd.info name :: r.2)
      else (r.1, Cmd.info name :: r.2)

/-- remove_packages from apk.py. -/
def remove_packages (b : Backend) (check_mode : Bool) (names : List String) :
    Outcome × List Cmd :=
  let c := collectInstalled b names
  let installed := c.1
  let tr := c.2
  if installed.isEmpty then
    (Outcome.ok false "package(s) already removed", tr)
  else
    let joined := joinSpace installed
    if b.delRC != 0 then
      (Outcome.failed ("failed to remove " ++ joined ++ " package(s)"),
       tr ++ [Cmd.del check_mode installed])
    else
      (Outcome.ok true ("removed " ++ joined ++ " package(s)"),
       tr ++ [Cmd.del check_mode installed])

/-- Module parameters after argument parsing.  `name` is the parsed package
list; Python's falsiness test `not p['name']` identifies both None and the
empty list, so both are modelled by `[]`. -/
structure Params where
  state : String
  name : List String
  update_cache : Bool
  upgrade : Bool
  check_mode : Bool

/-- State-synonym normalization of main (lines 194-197). -/
def normalizeState (s : String) : String :=
  if s == "present" || s == "installed" then "present"
  else if s == "absent" || s == "removed" then "absent"
  else s

/-- The per-package / upgrade-all dispatch of main (lines 204-210). -/
def dispatch (b : Backend) (p : Params) : Outcome × List Cmd :=
  if p.upgrade then upgrade_packages b p.check_mode
  else
    let state := normalizeState p.state
    if state == "present" || state == "latest" then
      install_packages b p.check_mode p.name state
    else if state == "absent" then
      remove_packages b p.check_mode p.name
    else (Outcome.noResult, [])

/-- main from apk.py (after argument parsing; the apk binary is assumed
present).  update_cache first runs apk update: a nonzero rc is fatal; on
success, an empty name list ends the run with changed true; otherwise the
run continues into the upgrade / per-package dispatch. -/
def mainRun (b : Backend) (p : Params) : Outcome × List Cmd :=
  if p.update_cache then
    if b.updateRC != 0 then
      (Outcome.failed "could not update package db", [Cmd.update])
    else if p.name.isEmpty then
      (Outcome.ok true "updated repository indexes", [Cmd.update])
    else
      ((dispatch b p).1, Cmd.update :: (dispatch b p).2)
  else dispatch b p

/-- All names submitted in install transactions of a trace. -/
def addNames (tr : List Cmd) : List String :=
  tr.flatMap fun c => match c with | Cmd.add _ _ ns => ns | _ => []

/-- All names submitted in remove transactions of a trace. -/
def delNames (tr : List Cmd) : List String :=
  tr.flatMap fun c => match c with | Cmd.del _ ns => ns | _ => []

/-- Split a character list into its newline-separated lines. -/
def splitLines : List Char → List (List Char)
  | [] => [[]]
  | c :: cs =>
      let r := splitLines cs
      if c == '\n' then [] :: r
      else
        match r with
        | [] => [[c]]
        | l :: ls => (c :: l) :: ls

/-- Reconciled backend answers with respect to a desired state and a name
list: for absent, no name reports installed; otherwise every name reports
installed and, under latest, also current (no update available). -/
def Reconciled (b : Backend) (state : String) (names : List String) : Prop :=
  ∀ n ∈ names,
    if state = "absent" then query_package b n = false
    else query_package b n = true ∧ (state = "latest" → query_latest b n = true)

/-- A backend for concrete instances: every package reports installed,
every command succeeds, the version listing is empty (so no update is
ever reported). -/
def allInstalled : Backend :=
  { updateRC := 0, infoRC := fun _ => 0, versionOut := fun _ => "",
    upgradeRC := 0, upgradeOut := "", addRC := 0, delRC := 0 }

/-- A backend for concrete instances: every package reports not installed
(info rc 1), every command succeeds. -/
def noneInstalled : Backend :=
  { updateRC := 0, infoRC := fun _ => 1, versionOut := fun _ => "",
    upgradeRC := 0, upgradeOut := "", addRC := 0, delRC := 0 }

/-- A backend whose version listing shows a stale line for the package
libfoo only: no line of the output is a line for the package foo itself. -/
def libfooBackend : Backend :=
  { updateRC := 0, infoRC := fun _ => 0,
    versionOut := fun _ => "libfoo-1.0-r0 < 1.1-r0 ",
    upgradeRC := 0, upgradeOut := "", addRC := 0, delRC := 0 }

/-! Helper lemmas shared by the claim theorems. -/

/-- Declarative semantics of a token sequence: `TokMatches toks cs cap`
holds when `toks` matches exactly the characters `cs`, recording `cap`
as the group-2 capture. -/
inductive TokMatches : List Tok → List Char → Option Char → Prop where
  | nil : TokMatches [] [] none
  | lit (s : List Char) {ts : List Tok} {cs : List Char} {cap : Option Char} :
      TokMatches ts cs cap → TokMatches (Tok.lit s :: ts) (s ++ cs) cap
  | plus (cls : Char → Bool) {run : List Char} {ts : List Tok} {cs : List Char}
      {cap : Option Char} : run ≠ [] → (∀ c ∈ run, cls c = true) →
      TokMatches ts cs cap → TokMatches (Tok.plus cls :: ts) (run ++ cs) cap
  | anyCap {c : Char} {ts : List Tok} {cs : List Char} {cap : Option Char} :
      c ≠ '\n' → TokMatches ts cs cap →
      TokMatches (Tok.anyCapture :: ts) (c :: cs) (some c)

lemma isPrefixOf_eq_append :
    ∀ (s input : List Char), s.isPrefixOf input = true →
      input = s ++ input.drop s.length := by
  intro s
  induction s with
  | nil => intro input _; simp
  | cons a as ih =>
      intro input h
      cases input with
      | nil => simp [List.isPrefixOf] at h
      | cons b bs =>
          simp only [List.isPrefixOf, Bool.and_eq_true, beq_iff_eq] at h
          obtain ⟨hab, hpre⟩ := h
          subst hab
          simpa using ih bs hpre

lemma mem_takeWhile_sat (p : Char → Bool) :
    ∀ (l : List Char) (c : Char), c ∈ l.takeWhile p → p c = true := by
  intro l
  induction l with
  | nil => intro c hc; simp [List.takeWhile] at hc
  | cons a as ih =>
      intro c hc
      by_cases hpa : p a = true
      · rw [List.takeWhile_cons, if_pos hpa] at hc
        rcases List.mem_cons.mp hc with h | h
        · exact h ▸ hpa
        · exact ih c h
      · rw [List.takeWhile_cons, if_neg hpa] at hc
        simp at hc

lemma takeWhile_length_le (p : Char → Bool) :
    ∀ l : List Char, (l.takeWhile p).length ≤ l.length := by
  intro l
  induction l with
  | nil => simp [List.takeWhile]
  | cons a as ih =>
      rw [List.takeWhile_cons]
      by_cases hpa : p a = true
      · rw [if_pos hpa]; simpa using ih
      · rw [if_neg hpa]; simp

lemma findSome?_eq_some {α β : Type} {l : List α} {f : α → Option β} {b : β}
    (h : l.findSome? f = some b) : ∃ a, a ∈ l ∧ f a = some b := by
  induction l with
  | nil => simp [List.findSome?] at h
  | cons x xs ih =>
      rw [List.findSome?_cons] at h
      cases hx : f x with
      | some v =>
          rw [hx] at h
          simp only [Option.some.injEq] at h
          exact ⟨x, List.mem_cons_self x xs, by rw [hx, h]⟩
      | none =>
          rw [hx] at h
          obtain ⟨a, ha, hfa⟩ := ih h
          exact ⟨a, List.mem_cons_of_mem x ha, hfa⟩

/-- Soundness of the executable matcher: a successful run of matchToks
yields a declarative match of a prefix of the input. -/
lemma matchToks_sound :
    ∀ (f : Nat) (toks : List Tok) (input : List Char) (r : Option Char),
      matchToks f toks input = some r →
      ∃ cs rest, input = cs ++ rest ∧ TokMatches toks cs r := by
  intro f
  induction f with
  | zero =>
      intro toks input r h
      cases toks with
      | nil =>
          simp only [matchToks, Option.some.injEq] at h
          exact ⟨[], input, rfl, h ▸ TokMatches.nil⟩
      | cons t ts => simp [matchToks] at h
  | succ f ih =>
      intro toks input r h
      cases toks with
      | nil =>
          simp only [matchToks, Option.some.injEq] at h
          exact ⟨[], input, rfl, h ▸ TokMatches.nil⟩
      | cons t ts =>
          cases t with
          | lit s =>
              simp only [matchToks] at h
              by_cases hpre : s.isPrefixOf input = true
              · rw [if_pos hpre] at h
                obtain ⟨cs, rest, hsplit, hm⟩ := ih ts (input.drop s.length) r h
                refine ⟨s ++ cs, rest, ?_, TokMatches.lit s hm⟩
                rw [List.append_assoc, ← hsplit]
                exact isPrefixOf_eq_append s input hpre
              · rw [if_neg hpre] at h; exact absurd h (by simp)
          | anyCapture =>
              cases input with
              | nil => simp [matchToks] at h
              | cons c rest0 =>
                  simp only [matchToks] at h
                  by_cases hnl : (c == '\n') = true
                  · rw [if_pos hnl] at h; exact absurd h (by simp)
                  · rw [if_neg hnl] at h
                    cases hrec : matchToks f ts rest0 with
                    | none => rw [hrec] at h; exact absurd h (by simp)
                    | some cap =>
                        rw [hrec] at h
                        obtain ⟨cs, rest, hsplit, hm⟩ := ih ts rest0 cap hrec
                        simp only [Option.some.injEq] at h
                        refine ⟨c :: cs, rest, by rw [List.cons_append, ← hsplit], ?_⟩
                        have hc : c ≠ '\n' := by
                          intro hc; exact hnl (by rw [hc]; rfl)
                        exact h ▸ TokMatches.anyCap hc hm
          | plus cls =>
              simp only [matchToks] at h
              obtain ⟨j, hjmem, hj⟩ := findSome?_eq_some h
              have hjlt : j < (input.takeWhile cls).length := by
                rw [List.mem_reverse, List.mem_range] at hjmem
                exact hjmem
              obtain ⟨cs, rest, hsplit, hm⟩ := ih ts (input.drop (j + 1)) r hj
              have htwle : (input.takeWhile cls).length ≤ input.length :=
                takeWhile_length_le cls input
              have hlen : j + 1 ≤ input.length := by omega
              refine ⟨input.take (j + 1) ++ cs, rest, ?_, ?_⟩
              · rw [List.append_assoc, ← hsplit, List.take_append_drop]
              · refine TokMatches.plus cls ?_ ?_ hm
                · intro hnil
                  have : (input.take (j + 1)).length = 0 := by rw [hnil]; rfl
                  rw [List.length_take] at this
                  omega
                · intro c hc
                  apply mem_takeWhile_sat cls input
                  have htake : input.take (j + 1) =
                      (input.takeWhile cls).take (j + 1) := by
                    conv_lhs => rw [← List.takeWhile_append_dropWhile (p := cls) (l := input)]
                    rw [List.take_append_of_le_length (by omega)]
                  rw [htake] at hc
                  exact List.take_subset _ _ hc

/-- Soundness of the leftmost search: a successful search yields a
declarative match of some infix of the input. -/
lemma searchToks_sound :
    ∀ (toks : List Tok) (input : List Char) (r : Option Char),
      searchToks toks input = some r →
      ∃ pre cs rest, input = pre ++ cs ++ rest ∧ TokMatches toks cs r := by
  intro toks input
  induction input with
  | nil =>
      intro r h
      simp only [searchToks] at h
      obtain ⟨cs, rest, hsplit, hm⟩ := matchToks_sound _ _ _ _ h
      exact ⟨[], cs, rest, by simpa using hsplit, hm⟩
  | cons c rest0 ih =>
      intro r h
      simp only [searchToks] at h
      cases hmt : matchToks toks.length toks (c :: rest0) with
      | some v =>
          rw [hmt] at h
          simp only [Option.some.injEq] at h
          obtain ⟨cs, rest, hsplit, hm⟩ := matchToks_sound _ _ _ _ hmt
          exact ⟨[], cs, rest, by simpa using hsplit, h ▸ hm⟩
      | none =>
          rw [hmt] at h
          obtain ⟨pre, cs, rest, hsplit, hm⟩ := ih r h
          exact ⟨c :: pre, cs, rest, by simp [hsplit], hm⟩

/-- Closed form of the classification loop: uninstalled names are the
input filtered by not-installed, the upgrade flag is an any-fold, and the
trace lists, per name in order, the isInstalled query followed by the
hasUpdate query exactly when the name is installed and the state is
latest. -/
lemma classify_eq (b : Backend) (st : String) :
    ∀ names : List String,
      classify b st names =
        (names.filter fun n => !(query_package b n),
         names.any fun n => query_package b n && (st == "latest") && !(query_latest b n),
         names.flatMap fun n =>
           if !(query_package b n) then [Cmd.info n]
           else if st == "latest" then [Cmd.info n, Cmd.version n]
           else [Cmd.info n]) := by
  intro names
  induction names with
  | nil => rfl
  | cons n rest ih =>
      cases hq : query_package b n with
      | false =>
          simp [classify, ih, hq, List.filter_cons, List.any_cons, List.flatMap_cons]
      | true =>
          cases hl : (st == "latest") with
          | false =>
              simp [classify, ih, hq, hl, List.filter_cons, List.any_cons,
                List.flatMap_cons]
          | true =>
              simp [classify, ih, hq, hl, List.filter_cons, List.any_cons,
                List.flatMap_cons]

/-- Closed form of the removal collection loop. -/
lemma collectInstalled_eq (b : Backend) :
    ∀ names : List String,
      collectInstalled b names =
        (names.filter fun n => query_package b n, names.map Cmd.info) := by
  intro names
  induction names with
  | nil => rfl
  | cons n rest ih =>
      cases hq : query_package b n with
      | false => simp [collectInstalled, ih, hq, List.filter_cons]
      | true => simp [collectInstalled, ih, hq, List.filter_cons]

lemma mainRun_no_cache (b : Backend) (st : String) (names : List String)
    (upg check : Bool) :
    mainRun b ⟨st, names, false, upg, check⟩ =
      dispatch b ⟨st, names, false, upg, check⟩ := rfl

lemma dispatch_upgrade (b : Backend) (st : String) (names : List String)
    (uc check : Bool) :
    dispatch b ⟨st, names, uc, true, check⟩ = upgrade_packages b check := rfl

lemma dispatch_present (b : Backend) (names : List String) (uc check : Bool) :
    dispatch b ⟨"present", names, uc, false, check⟩ =
      install_packages b check names "present" := rfl

lemma dispatch_latest (b : Backend) (names : List String) (uc check : Bool) :
    dispatch b ⟨"latest", names, uc, false, check⟩ =
      install_packages b check names "latest" := rfl

lemma dispatch_absent (b : Backend) (names : List String) (uc check : Bool) :
    dispatch b ⟨"absent", names, uc, false, check⟩ =
      remove_packages b check names := rfl

lemma mainRun_cache_continue (b : Backend) (st : String) (names : List String)
    (upg check : Bool) (h0 : b.updateRC = 0) (hne : names ≠ []) :
    mainRun b ⟨st, names, true, upg, check⟩ =
      ((dispatch b ⟨st, names, true, upg, check⟩).1,
       Cmd.update :: (dispatch b ⟨st, names, true, upg, check⟩).2) := by
  have hemp : names.isEmpty = false := by
    cases names with
    | nil => exact absurd rfl hne
    | cons a l => rfl
  simp [mainRun, h0, hemp]

lemma mainRun_cache_refresh_only (b : Backend) (st : String) (upg check : Bool)
    (h0 : b.updateRC = 0) :
    mainRun b ⟨st, [], true, upg, check⟩ =
      (Outcome.ok true "updated repository indexes", [Cmd.update]) := by
  simp [mainRun, h0]

lemma addNames_append (a c : List Cmd) :
    addNames (a ++ c) = addNames a ++ addNames c := by
  simp [addNames]

lemma delNames_append (a c : List Cmd) :
    delNames (a ++ c) = delNames a ++ delNames c := by
  simp [delNames]

/-- The trace of an install run: the classification queries followed by
the apk add transaction, unless the run exited early because nothing was
uninstalled and no stale package set the upgrade flag. -/
lemma install_trace (b : Backend) (check : Bool) (names : List String)
    (st : String) :
    (install_packages b check names st).2 =
      (classify b st names).2.2 ++
        (if ((classify b st names).1.isEmpty && !(classify b st names).2.1) = true
         then []
         else [Cmd.add (classify b st names).2.1 check (classify b st names).1]) := by
  unfold install_packages
  by_cases h1 : ((classify b st names).1.isEmpty && !(classify b st names).2.1) = true
  · simp [h1]
  · by_cases h2 : (b.addRC != 0) = true
    · simp [h1, h2]
    · simp [h1, h2]

/-- The outcome of an install run. -/
lemma install_outcome (b : Backend) (check : Bool) (names : List String)
    (st : String) :
    (install_packages b check names st).1 =
      (if ((classify b st names).1.isEmpty && !(classify b st names).2.1) = true
       then Outcome.ok false "package(s) already installed"
       else if (b.addRC != 0) = true then
         Outcome.failed ("failed to install " ++ joinSpace (classify b st names).1)
       else
         Outcome.ok true
           ("installed " ++ joinSpace (classify b st names).1 ++ " package(s)")) := by
  unfold install_packages
  by_cases h1 : ((classify b st names).1.isEmpty && !(classify b st names).2.1) = true
  · simp [h1]
  · by_cases h2 : (b.addRC != 0) = true
    · simp [h1, h2]
    · simp [h1, h2]

/-- The trace of a remove run: one isInstalled query per name in order,
then the apk del transaction over the installed names, unless none was
installed. -/
lemma remove_trace (b : Backend) (check : Bool) (names : List String) :
    (remove_packages b check names).2 =
      names.map Cmd.info ++
        (if (names.filter fun n => query_package b n).isEmpty = true then []
         else [Cmd.del check (names.filter fun n => query_package b n)]) := by
  unfold remove_packages
  rw [collectInstalled_eq]
  by_cases h1 : (names.filter fun n => query_package b n).isEmpty = true
  · simp [h1]
  · by_cases h2 : (b.delRC != 0) = true
    · simp [h1, h2]
    · simp [h1, h2]

/-- The outcome of a remove run. -/
lemma remove_outcome (b : Backend) (check : Bool) (names : List String) :
    (remove_packages b check names).1 =
      (if (names.filter fun n => query_package b n).isEmpty = true then
        Outcome.ok false "package(s) already removed"
       else if (b.delRC != 0) = true then
        Outcome.failed ("failed to remove " ++
          joinSpace (names.filter fun n => query_package b n) ++ " package(s)")
       else
        Outcome.ok true ("removed " ++
          joinSpace (names.filter fun n => query_package b n) ++ " package(s)")) := by
  unfold remove_packages
  rw [collectInstalled_eq]
  by_cases h1 : (names.filter fun n => query_package b n).isEmpty = true
  · simp [h1]
  · by_cases h2 : (b.delRC != 0) = true
    · simp [h1, h2]
    · simp [h1, h2]

/-- The classification queries issue no transaction: their trace carries
no install and no remove batch. -/
lemma classify_trace_batches (b : Backend) (st : String) (names : List String) :
    addNames ((classify b st names).2.2) = [] ∧
      delNames ((classify b st names).2.2) = [] := by
  induction names with
  | nil => exact ⟨rfl, rfl⟩
  | cons n rest ih =>
      cases hq : query_package b n with
      | false => simpa [classify, hq, addNames, delNames] using ih
      | true =>
          cases hl : (st == "latest") with
          | false => simpa [classify, hq, hl, addNames, delNames] using ih
          | true => simpa [classify, hq, hl, addNames, delNames] using ih

lemma map_info_batches (names : List String) :
    addNames (names.map Cmd.info) = [] ∧ delNames (names.map Cmd.info) = [] := by
  induction names with
  | nil => exact ⟨rfl, rfl⟩
  | cons n rest _ => simp [addNames, delNames]

/-- An install run submits no remove batch. -/
lemma delNames_install (b : Backend) (check : Bool) (names : List String)
    (st : String) :
    delNames ((install_packages b check names st).2) = [] := by
  rw [install_trace, delNames_append, (classify_trace_batches b st names).2]
  by_cases h1 : ((classify b st names).1.isEmpty && !(classify b st names).2.1) = true
  · simp [h1, delNames]
  · simp [h1, delNames]

/-- A remove run submits no install batch. -/
lemma addNames_remove (b : Backend) (check : Bool) (names : List String) :
    addNames ((remove_packages b check names).2) = [] := by
  rw [remove_trace, addNames_append, (map_info_batches names).1]
  by_cases h1 : (names.filter fun n => query_package b n).isEmpty = true
  · simp [h1, addNames]
  · simp [h1, addNames]

/-- The install batch extracted from an install run's trace. -/
lemma addNames_install (b : Backend) (check : Bool) (names : List String)
    (st : String) :
    addNames ((install_packages b check names st).2) =
      (if ((classify b st names).1.isEmpty && !(classify b st names).2.1) = true
       then []
       else (classify b st names).1) := by
  rw [install_trace, addNames_append, (classify_trace_batches b st names).1]
  by_cases h1 : ((classify b st names).1.isEmpty && !(classify b st names).2.1) = true
  · simp [h1, addNames]
  · simp [h1, addNames]

/-- The remove batch extracted from a remove run's trace. -/
lemma delNames_remove (b : Backend) (check : Bool) (names : List String) :
    delNames ((remove_packages b check names).2) =
      (if (names.filter fun n => query_package b n).isEmpty = true then []
       else names.filter fun n => query_package b n) := by
  rw [remove_trace, delNames_append, (map_info_batches names).2]
  by_cases h1 : (names.filter fun n => query_package b n).isEmpty = true
  · simp [h1, delNames]
  · simp [h1, delNames]

/-! Claim theorems. -/

/-- C1: the claim (and the module's documentation of state latest) says
that for a run with state latest over foo, with foo installed and an
update available, the install transaction names exactly foo.  Evaluating
the embedded code at that input shows the code instead submits the apk
add transaction with the upgrade modifier set but an EMPTY package list
(only names found not installed are joined into the command), while still
reporting changed true. -/
theorem C1_latest_stale_empty_batch :
    mainRun
      { updateRC := 0, infoRC := fun _ => 0,
        versionOut := fun _ => "foo-1.0-r0 < 1.1-r0 ",
        upgradeRC := 0, upgradeOut := "", addRC := 0, delRC := 0 }
      ⟨"latest", ["foo"], false, false, false⟩ =
      (Outcome.ok true "installed  package(s)",
       [Cmd.info "foo", Cmd.version "foo", Cmd.add true false []]) := by
  decide

/-- C2: a run against an already-reconciled system (present: all names
installed; latest: all installed and current; absent: none installed)
reports changed false. -/
theorem C2_idempotent_second_run (b : Backend) (names : List String)
    (check : Bool) (st : String)
    (hst : st = "present" ∨ st = "latest" ∨ st = "absent")
    (hrec : Reconciled b st names) :
    ∃ m, (mainRun b ⟨st, names, false, false, check⟩).1 = Outcome.ok false m := by
  rcases hst with h | h | h <;> subst h
  · refine ⟨"package(s) already installed", ?_⟩
    have hfil : (names.filter fun n => !(query_package b n)) = [] := by
      rw [List.filter_eq_nil_iff]
      intro a ha
      have := hrec a ha
      rw [if_neg (by decide : ¬("present" : String) = "absent")] at this
      simp [this.1]
    have hany : (names.any fun n =>
        query_package b n && (("present" : String) == "latest") &&
          !(query_latest b n)) = false := by
      rw [← Bool.not_eq_true, List.any_eq_true]
      rintro ⟨x, hx, hpx⟩
      simp at hpx
    rw [mainRun_no_cache, dispatch_present, install_outcome, classify_eq]
    dsimp only
    rw [hfil, hany]
    simp
  · refine ⟨"package(s) already installed", ?_⟩
    have hfil : (names.filter fun n => !(query_package b n)) = [] := by
      rw [List.filter_eq_nil_iff]
      intro a ha
      have := hrec a ha
      rw [if_neg (by decide : ¬("latest" : String) = "absent")] at this
      simp [this.1]
    have hany : (names.any fun n =>
        query_package b n && (("latest" : String) == "latest") &&
          !(query_latest b n)) = false := by
      rw [← Bool.not_eq_true, List.any_eq_true]
      rintro ⟨x, hx, hpx⟩
      have := hrec x hx
      rw [if_neg (by decide : ¬("latest" : String) = "absent")] at this
      rw [this.1, this.2 rfl] at hpx
      simp at hpx
    rw [mainRun_no_cache, dispatch_latest, install_outcome, classify_eq]
    dsimp only
    rw [hfil, hany]
    simp
  · refine ⟨"package(s) already removed", ?_⟩
    have hfil : (names.filter fun n => query_package b n) = [] := by
      rw [List.filter_eq_nil_iff]
      intro a ha
      have := hrec a ha
      rw [if_pos (rfl : ("absent" : String) = "absent")] at this
      simp [this]
    rw [mainRun_no_cache, dispatch_absent, remove_outcome, hfil]
    simp

/-- C2 witness: a concrete reconciled system (foo installed, state
present) on which the theorem applies. -/
theorem C2_witness :
    Reconciled allInstalled "present" ["foo"] ∧
    ∃ m, (mainRun allInstalled ⟨"present", ["foo"], false, false, false⟩).1 =
      Outcome.ok false m :=
  ⟨by unfold Reconciled; decide,
   C2_idempotent_second_run allInstalled ["foo"] false "present" (Or.inl rfl)
     (by unfold Reconciled; decide)⟩

lemma upgrade_trace (b : Backend) (check : Bool) :
    (upgrade_packages b check).2 = [Cmd.upgradeAll check] := by
  unfold upgrade_packages
  by_cases h1 : (b.upgradeRC != 0) = true
  · simp [h1]
  · by_cases h2 : startsWithOK b.upgradeOut = true
    · simp [h1, h2]
    · simp [h1, h2]

lemma upgrade_outcome (b : Backend) (check : Bool) :
    (upgrade_packages b check).1 =
      (if (b.upgradeRC != 0) = true then
        Outcome.failed "failed to upgrade packages"
       else if startsWithOK b.upgradeOut = true then
        Outcome.ok false "packages already upgraded"
       else Outcome.ok true "upgraded packages") := by
  unfold upgrade_packages
  by_cases h1 : (b.upgradeRC != 0) = true
  · simp [h1]
  · by_cases h2 : startsWithOK b.upgradeOut = true
    · simp [h1, h2]
    · simp [h1, h2]

lemma classify_trace_length (b : Backend) (st : String) :
    ∀ names : List String, names.length ≤ ((classify b st names).2.2).length := by
  intro names
  induction names with
  | nil => simp [classify]
  | cons n rest ih =>
      cases hq : query_package b n with
      | false => simp [classify, hq]; omega
      | true =>
          cases hl : (st == "latest") with
          | false => simp [classify, hq, hl]; omega
          | true => simp [classify, hq, hl]; omega

lemma install_trace_length (b : Backend) (check : Bool) (names : List String)
    (st : String) :
    names.length ≤ ((install_packages b check names st).2).length := by
  rw [install_trace]
  have := classify_trace_length b st names
  by_cases h1 : ((classify b st names).1.isEmpty && !(classify b st names).2.1) = true
  · simp [h1]; omega
  · simp [h1]; omega

lemma remove_trace_length (b : Backend) (check : Bool) (names : List String) :
    names.length ≤ ((remove_packages b check names).2).length := by
  rw [remove_trace]
  by_cases h1 : (names.filter fun n => query_package b n).isEmpty = true
  · simp [h1]
  · simp [h1]

/-- The dispatch of main issues at least one backend command when the
state is one of the three admitted ones and names are given. -/
lemma dispatch_trace_pos (b : Backend) (st : String) (names : List String)
    (uc upg check : Bool)
    (hst : st = "present" ∨ st = "latest" ∨ st = "absent")
    (hne : names ≠ []) :
    1 ≤ (dispatch b ⟨st, names, uc, upg, check⟩).2.length := by
  have hlen : 1 ≤ names.length := by
    cases names with
    | nil => exact absurd rfl hne
    | cons a l => simp
  cases hu : upg with
  | true => rw [dispatch_upgrade, upgrade_trace]; simp
  | false =>
      rcases hst with h | h | h <;> subst h
      · rw [dispatch_present]
        exact le_trans hlen (install_trace_length b check names "present")
      · rw [dispatch_latest]
        exact le_trans hlen (install_trace_length b check names "latest")
      · rw [dispatch_absent]
        exact le_trans hlen (remove_trace_length b check names)

/-- C3 counterexample: update_cache and upgrade-all both requested with no
package names.  The claim says the refresh must not end the run and
upgrade-all must still execute; evaluating the code, the run ends at the
refresh with changed true and the upgrade command is never issued. -/
theorem C3_counterexample :
    mainRun allInstalled ⟨"present", [], true, true, false⟩ =
      (Outcome.ok true "updated repository indexes", [Cmd.update]) ∧
    Cmd.upgradeAll false ∉ (mainRun allInstalled ⟨"present", [], true, true, false⟩).2 := by
  decide

/-- C3 amended: after a successful refresh the run short-circuits with
changed true exactly when no package names were given, regardless of the
upgrade-all flag; with names present the run continues past the refresh
(the refresh command comes first and at least one further backend command
runs; when upgrade-all is requested the rest is exactly the upgrade
command). -/
theorem C3_refresh_short_circuit (b : Backend) (st : String)
    (names : List String) (upg check : Bool) (hrc : b.updateRC = 0)
    (hst : st = "present" ∨ st = "latest" ∨ st = "absent") :
    (names = [] →
      mainRun b ⟨st, names, true, upg, check⟩ =
        (Outcome.ok true "updated repository indexes", [Cmd.update])) ∧
    (names ≠ [] →
      (mainRun b ⟨st, names, true, upg, check⟩).2.head? = some Cmd.update ∧
      2 ≤ (mainRun b ⟨st, names, true, upg, check⟩).2.length ∧
      (upg = true →
        (mainRun b ⟨st, names, true, upg, check⟩).2 =
          [Cmd.update, Cmd.upgradeAll check])) := by
  constructor
  · intro h
    subst h
    exact mainRun_cache_refresh_only b st upg check hrc
  · intro hne
    rw [mainRun_cache_continue b st names upg check hrc hne]
    refine ⟨rfl, ?_, ?_⟩
    · have := dispatch_trace_pos b st names true upg check hst hne
      simp
      omega
    · intro hu
      subst hu
      rw [dispatch_upgrade, upgrade_trace]

/-- C3 witness: concrete run with update_cache, upgrade-all requested,
and the name list foo. -/
theorem C3_witness :
    allInstalled.updateRC = 0 ∧
    ((["foo"] : List String) = [] →
      mainRun allInstalled ⟨"present", ["foo"], true, true, false⟩ =
        (Outcome.ok true "updated repository indexes", [Cmd.update])) ∧
    ((["foo"] : List String) ≠ [] →
      (mainRun allInstalled ⟨"present", ["foo"], true, true, false⟩).2.head? =
        some Cmd.update ∧
      2 ≤ (mainRun allInstalled ⟨"present", ["foo"], true, true, false⟩).2.length ∧
      (true = true →
        (mainRun allInstalled ⟨"present", ["foo"], true, true, false⟩).2 =
          [Cmd.update, Cmd.upgradeAll false])) :=
  ⟨rfl,
   C3_refresh_short_circuit allInstalled "present" ["foo"] true false rfl
     (Or.inl rfl)⟩

lemma flatMap_queries_all_uninstalled (b : Backend) (st : String) :
    ∀ names : List String, (∀ n ∈ names, query_package b n = false) →
      (names.flatMap fun n =>
        if !(query_package b n) then [Cmd.info n]
        else if st == "latest" then [Cmd.info n, Cmd.version n]
        else [Cmd.info n]) = names.map Cmd.info := by
  intro names
  induction names with
  | nil => intro _; rfl
  | cons n rest ih =>
      intro h
      have hn := h n (List.mem_cons_self n rest)
      have hrest := fun x hx => h x (List.mem_cons_of_mem n hx)
      rw [List.flatMap_cons, ih hrest, hn]
      simp

/-- C4 counterexample: the isInstalled query for foo returns the
non-success rc 1, yet the run does not terminate fatally: the name is
classified as not installed, the absent run proceeds and exits normally
with changed false. -/
theorem C4_counterexample :
    mainRun noneInstalled ⟨"absent", ["foo"], false, false, false⟩ =
      (Outcome.ok false "package(s) already removed", [Cmd.info "foo"]) := by
  decide

/-- C4 amended: a non-success completion signal from the isInstalled
query is interpreted as "not installed" and the run proceeds; far from
aborting, an install run whose every isInstalled query signalled
non-success puts every requested name into the install batch and submits
the mutating transaction. -/
theorem C4_info_failure_not_fatal (b : Backend) (names : List String)
    (check : Bool) (st : String) (hst : st = "present" ∨ st = "latest")
    (hrc : ∀ n ∈ names, b.infoRC n ≠ 0) (hne : names ≠ [])
    (hadd : b.addRC = 0) :
    mainRun b ⟨st, names, false, false, check⟩ =
      (Outcome.ok true ("installed " ++ joinSpace names ++ " package(s)"),
       names.map Cmd.info ++ [Cmd.add false check names]) := by
  have hqp : ∀ n ∈ names, query_package b n = false := by
    intro n hn
    have := hrc n hn
    simp [query_package, this]
  have hfil : (names.filter fun n => !(query_package b n)) = names := by
    rw [List.filter_eq_self]
    intro a ha
    simp [hqp a ha]
  have hemp : names.isEmpty = false := by
    cases names with
    | nil => exact absurd rfl hne
    | cons a l => rfl
  have haddne : (b.addRC != 0) = false := by simp [hadd]
  rcases hst with h | h <;> subst h
  · have hany : (names.any fun n =>
        query_package b n && (("present" : String) == "latest") &&
          !(query_latest b n)) = false := by
      rw [← Bool.not_eq_true, List.any_eq_true]
      rintro ⟨x, hx, hpx⟩
      rw [hqp x hx] at hpx
      simp at hpx
    rw [mainRun_no_cache, dispatch_present, Prod.ext_iff]
    constructor
    · rw [install_outcome, classify_eq]
      dsimp only
      rw [hfil, hany, haddne]
      simp [hemp]
    · rw [install_trace, classify_eq]
      dsimp only
      rw [hfil, hany,
        flatMap_queries_all_uninstalled b "present" names hqp]
      simp [hemp]
  · have hany : (names.any fun n =>
        query_package b n && (("latest" : String) == "latest") &&
          !(query_latest b n)) = false := by
      rw [← Bool.not_eq_true, List.any_eq_true]
      rintro ⟨x, hx, hpx⟩
      rw [hqp x hx] at hpx
      simp at hpx
    rw [mainRun_no_cache, dispatch_latest, Prod.ext_iff]
    constructor
    · rw [install_outcome, classify_eq]
      dsimp only
      rw [hfil, hany, haddne]
      simp [hemp]
    · rw [install_trace, classify_eq]
      dsimp only
      rw [hfil, hany,
        flatMap_queries_all_uninstalled b "latest" names hqp]
      simp [hemp]

/-- C4 witness: concrete install run in which the isInstalled query for
foo signals rc 1. -/
theorem C4_witness :
    (∀ n ∈ (["foo"] : List String), noneInstalled.infoRC n ≠ 0) ∧
    mainRun noneInstalled ⟨"present", ["foo"], false, false, false⟩ =
      (Outcome.ok true ("installed " ++ joinSpace ["foo"] ++ " package(s)"),
       (["foo"] : List String).map Cmd.info ++ [Cmd.add false false ["foo"]]) :=
  ⟨by decide,
   C4_info_failure_not_fatal noneInstalled ["foo"] false "present" (Or.inl rfl)
     (by decide) (by decide) rfl⟩

/-- C5 counterexample: with the version listing consisting solely of a
stale line for the package libfoo, the update-availability query for foo
reports an update available, although no line of the output is a line for
foo itself (none starts with foo-): the pattern matched inside libfoo's
line.  This refutes the claim that an update is reported only when the
output contains that specific package's own version line. -/
theorem C5_counterexample :
    query_latest libfooBackend "foo" = false ∧
    ((splitLines (libfooBackend.versionOut "foo").data).all
      fun l => !(("foo-".data).isPrefixOf l)) = true := by
  decide

/-- C5 amended: an update is reported for a name only when the backend
output contains, somewhere (possibly inside another package's line), the
version-comparison shape of the pattern with the marker between the two
version fields being the less-than sign; in particular, output in which
the pattern matches nowhere never yields an update report. -/
theorem C5_update_needs_pattern_match (b : Backend) (name : String)
    (h : query_latest b name = false) :
    ∃ pre cs rest, (b.versionOut name).data = pre ++ cs ++ rest ∧
      TokMatches (versionToks name) cs (some '<') := by
  unfold query_latest at h
  cases hs : searchToks (versionToks name) (b.versionOut name).data with
  | none => rw [hs] at h; simp at h
  | some o =>
      cases o with
      | none => rw [hs] at h; simp at h
      | some c =>
          rw [hs] at h
          by_cases hc : (c == '<') = true
          · have hcc : c = '<' := by
              rw [← beq_iff_eq (a := c) (b := '<')]
              exact hc
            subst hcc
            exact searchToks_sound _ _ _ hs
          · exfalso
            simp [hc] at h

/-- C5 witness: the libfoo output, on which the update report is produced
and the theorem exhibits the matched shape. -/
theorem C5_witness :
    query_latest libfooBackend "foo" = false ∧
    ∃ pre cs rest, (libfooBackend.versionOut "foo").data = pre ++ cs ++ rest ∧
      TokMatches (versionToks "foo") cs (some '<') :=
  ⟨by decide, C5_update_needs_pattern_match libfooBackend "foo" (by decide)⟩

/-- C6: the classification trace lists, for every requested name in input
order, the isInstalled query first, followed by the hasUpdate query
exactly when the name is installed and the state is latest (so at most
two queries per name); in particular under state present no hasUpdate
query is ever issued. -/
theorem C6_classification_queries (b : Backend) (st : String)
    (names : List String) :
    (classify b st names).2.2 =
      (names.flatMap fun n =>
        if !(query_package b n) then [Cmd.info n]
        else if st == "latest" then [Cmd.info n, Cmd.version n]
        else [Cmd.info n]) ∧
    (st = "present" → ∀ n, Cmd.version n ∉ (classify b st names).2.2) := by
  constructor
  · rw [classify_eq]
  · intro h n hmem
    subst h
    rw [classify_eq] at hmem
    dsimp only at hmem
    rw [List.mem_flatMap] at hmem
    obtain ⟨x, hx, hv⟩ := hmem
    cases hq : query_package b x with
    | true => rw [hq] at hv; simp at hv
    | false => rw [hq] at hv; simp at hv

/-- C6 witness: concrete classification under state present issues no
hasUpdate query. -/
theorem C6_witness :
    Cmd.version "foo" ∉ (classify allInstalled "present" ["foo"]).2.2 :=
  (C6_classification_queries allInstalled "present" ["foo"]).2 rfl "foo"

/-- C7 counterexample: upgrade-all requested together with update_cache
and no names; the claim says upgrade-all always runs and ends the run,
but the run ends at the refresh and no upgrade command is issued. -/
theorem C7_counterexample :
    mainRun allInstalled ⟨"latest", [], true, true, true⟩ =
      (Outcome.ok true "updated repository indexes", [Cmd.update]) ∧
    Cmd.upgradeAll true ∉ (mainRun allInstalled ⟨"latest", [], true, true, true⟩).2 := by
  decide

/-- C7 amended: when upgrade-all is requested and the run reaches it
(update_cache off, or names present so the refresh does not short-circuit),
the upgrade command runs immediately after any refresh and ends the run:
the whole trace is at most the refresh followed by the upgrade command
(no per-package query or transaction), and the outcome is failure when
the backend rc is nonzero, changed false when the output starts with OK,
and changed true otherwise. -/
theorem C7_upgrade_all (b : Backend) (st : String) (names : List String)
    (uc check : Bool) (hreach : uc = false ∨ names ≠ [])
    (hrc : uc = true → b.updateRC = 0) :
    ∃ pre, (mainRun b ⟨st, names, uc, true, check⟩).2 =
        pre ++ [Cmd.upgradeAll check] ∧
      (pre = [] ∨ pre = [Cmd.update]) ∧
      (mainRun b ⟨st, names, uc, true, check⟩).1 =
        (if (b.upgradeRC != 0) = true then
          Outcome.failed "failed to upgrade packages"
         else if startsWithOK b.upgradeOut = true then
          Outcome.ok false "packages already upgraded"
         else Outcome.ok true "upgraded packages") := by
  cases hu : uc with
  | false =>
      refine ⟨[], ?_, Or.inl rfl, ?_⟩
      · rw [mainRun_no_cache, dispatch_upgrade, upgrade_trace]
        rfl
      · rw [mainRun_no_cache, dispatch_upgrade, upgrade_outcome]
  | true =>
      have hne : names ≠ [] := by
        rcases hreach with h | h
        · rw [hu] at h; exact absurd h (by simp)
        · exact h
      rw [mainRun_cache_continue b st names true check (hrc hu) hne]
      refine ⟨[Cmd.update], ?_, Or.inr rfl, ?_⟩
      · rw [dispatch_upgrade, upgrade_trace]
        rfl
      · rw [dispatch_upgrade, upgrade_outcome]

/-- C7 witness: a concrete upgrade-only run. -/
theorem C7_witness :
    ((false : Bool) = false ∨ (([] : List String) ≠ [])) ∧
    ∃ pre, (mainRun allInstalled ⟨"present", [], false, true, false⟩).2 =
        pre ++ [Cmd.upgradeAll false] ∧
      (pre = [] ∨ pre = [Cmd.update]) ∧
      (mainRun allInstalled ⟨"present", [], false, true, false⟩).1 =
        (if (allInstalled.upgradeRC != 0) = true then
          Outcome.failed "failed to upgrade packages"
         else if startsWithOK allInstalled.upgradeOut = true then
          Outcome.ok false "packages already upgraded"
         else Outcome.ok true "upgraded packages") :=
  ⟨Or.inl rfl,
   C7_upgrade_all allInstalled "present" [] false false (Or.inl rfl)
     (fun _ => rfl)⟩

/-- C8: full characterization of an absent run.  The remove batch is
exactly the input names the backend reports installed; an empty batch
yields changed false with the already-removed message and no mutating
command; a non-empty batch yields exactly one remove transaction over it,
changed true on rc 0 and a fatal failure naming the batch otherwise. -/
theorem C8_absent_run (b : Backend) (names : List String) (check : Bool) :
    mainRun b ⟨"absent", names, false, false, check⟩ =
      (if (names.filter fun n => query_package b n).isEmpty = true then
        Outcome.ok false "package(s) already removed"
       else if (b.delRC != 0) = true then
        Outcome.failed ("failed to remove " ++
          joinSpace (names.filter fun n => query_package b n) ++ " package(s)")
       else
        Outcome.ok true ("removed " ++
          joinSpace (names.filter fun n => query_package b n) ++ " package(s)"),
       names.map Cmd.info ++
        (if (names.filter fun n => query_package b n).isEmpty = true then []
         else [Cmd.del check (names.filter fun n => query_package b n)])) := by
  rw [mainRun_no_cache, dispatch_absent, Prod.ext_iff]
  exact ⟨remove_outcome b check names, remove_trace b check names⟩

lemma addNames_update_cons (tr : List Cmd) :
    addNames (Cmd.update :: tr) = addNames tr := by
  simp [addNames]

lemma delNames_update_cons (tr : List Cmd) :
    delNames (Cmd.update :: tr) = delNames tr := by
  simp [delNames]

/-- In any dispatch, at least one of the two batches is empty. -/
lemma dispatch_batches (b : Backend) (p : Params) :
    addNames (dispatch b p).2 = [] ∨ delNames (dispatch b p).2 = [] := by
  obtain ⟨st, names, uc, upg, check⟩ := p
  cases hu : upg with
  | true =>
      rw [dispatch_upgrade, upgrade_trace]
      left
      rfl
  | false =>
      unfold dispatch
      dsimp only
      by_cases h1 : (normalizeState st == "present" ||
          normalizeState st == "latest") = true
      · rw [if_pos h1]
        right
        exact delNames_install b check names (normalizeState st)
      · rw [if_neg h1]
        by_cases h2 : (normalizeState st == "absent") = true
        · rw [if_pos h2]
          left
          exact addNames_remove b check names
        · rw [if_neg h2]
          left
          rfl

/-- C9: in every run, no package name appears in both the install batch
and the remove batch of the submitted transactions (indeed at most one of
the two kinds of transaction is submitted at all). -/
theorem C9_batches_disjoint (b : Backend) (p : Params) :
    ((addNames (mainRun b p).2).all
      fun x => !((delNames (mainRun b p).2).contains x)) = true := by
  have key : addNames (mainRun b p).2 = [] ∨ delNames (mainRun b p).2 = [] := by
    unfold mainRun
    by_cases h1 : p.update_cache = true
    · rw [if_pos h1]
      by_cases h2 : (b.updateRC != 0) = true
      · rw [if_pos h2]
        left
        rfl
      · rw [if_neg h2]
        by_cases h3 : p.name.isEmpty = true
        · rw [if_pos h3]
          left
          rfl
        · rw [if_neg h3]
          dsimp only
          rcases dispatch_batches b p with h | h
          · left
            rw [addNames_update_cons]
            exact h
          · right
            rw [delNames_update_cons]
            exact h
    · rw [if_neg h1]
      exact dispatch_batches b p
  rcases key with h | h
  · rw [h]
    rfl
  · rw [List.all_eq_true]
    intro x _
    rw [h]
    rfl

lemma count_filter_eq (p : String → Bool) (x : String) (l : List String) :
    (l.filter p).count x = (if p x = true then l.count x else 0) := by
  by_cases hp : p x = true
  · rw [if_pos hp]
    exact List.count_filter hp
  · rw [if_neg hp]
    rw [List.count_eq_zero]
    intro hmem
    exact hp (List.mem_filter.mp hmem).2

/-- C10: no deduplication.  The install batch submitted by install runs is
the input filtered by not-installed, and the remove batch the input
filtered by installed: a name occurring k times in the input occurs
exactly k times in the submitted batch when its classification selects it
(and 0 times otherwise), and each batch is a sublist of the input, so
batch order follows input order. -/
theorem C10_no_dedup (b : Backend) (check : Bool) (names : List String)
    (st : String) (x : String) :
    ((addNames ((install_packages b check names st).2)).count x =
      (if query_package b x = true then 0 else names.count x)) ∧
    List.Sublist (addNames ((install_packages b check names st).2)) names ∧
    ((delNames ((remove_packages b check names).2)).count x =
      (if query_package b x = true then names.count x else 0)) ∧
    List.Sublist (delNames ((remove_packages b check names).2)) names := by
  rw [addNames_install, delNames_remove]
  refine ⟨?_, ?_, ?_, ?_⟩
  · by_cases h1 : ((classify b st names).1.isEmpty && !(classify b st names).2.1) = true
    · rw [if_pos h1]
      have hie : (classify b st names).1.isEmpty = true :=
        (Bool.and_eq_true _ _ |>.mp h1).1
      rw [classify_eq] at hie
      dsimp only at hie
      have hfe : (names.filter fun n => !(query_package b n)) = [] :=
        List.isEmpty_iff.mp hie
      by_cases hq : query_package b x = true
      · rw [if_pos hq]
        rfl
      · rw [if_neg hq]
        have hqf : query_package b x = false := by
          cases hqq : query_package b x
          · rfl
          · exact absurd hqq hq
        have hxn : x ∉ names := by
          intro hmem
          have hxf : x ∈ names.filter fun n => !(query_package b n) :=
            List.mem_filter.mpr ⟨hmem, by rw [hqf]; rfl⟩
          rw [hfe] at hxf
          simp at hxf
        have hz : names.count x = 0 := List.count_eq_zero.mpr hxn
        rw [hz]
        rfl
    · rw [if_neg h1, classify_eq]
      dsimp only
      rw [count_filter_eq]
      by_cases hq : query_package b x = true
      · rw [if_pos hq, hq]
        simp
      · have hqf : query_package b x = false := by
          cases hqq : query_package b x
          · rfl
          · exact absurd hqq hq
        rw [if_neg hq, hqf]
        simp
  · by_cases h1 : ((classify b st names).1.isEmpty && !(classify b st names).2.1) = true
    · rw [if_pos h1]
      exact List.nil_sublist names
    · rw [if_neg h1, classify_eq]
      dsimp only
      exact List.filter_sublist names
  · by_cases h1 : (names.filter fun n => query_package b n).isEmpty = true
    · rw [if_pos h1]
      have hfe : (names.filter fun n => query_package b n) = [] :=
        List.isEmpty_iff.mp h1
      by_cases hq : query_package b x = true
      · rw [if_pos hq]
        have hxn : x ∉ names := by
          intro hmem
          have hxf : x ∈ names.filter fun n => query_package b n :=
            List.mem_filter.mpr ⟨hmem, hq⟩
          rw [hfe] at hxf
          simp at hxf
        have hz : names.count x = 0 := List.count_eq_zero.mpr hxn
        rw [hz]
        rfl
      · rw [if_neg hq]
        rfl
    · rw [if_neg h1, count_filter_eq]
  · by_cases h1 : (names.filter fun n => query_package b n).isEmpty = true
    · rw [if_pos h1]
      exact List.nil_sublist names
    · rw [if_neg h1]
      exact List.filter_sublist names
